import Mathlib

/-!
Verification of the `lupos-server` shared-services decoration layer
(`src/packages/lupos-server/src/shared-services/decorator.ts`) and the lupos
completion service (`LuposCompletion.makeCompletionInfo`), against their
natural-language specification.

The TypeScript code is embedded shallowly: each wrapper installed by
`TSLanguageServiceProxy` becomes a pure Lean function over explicit arguments
(the template provider, the template-service handler the wrapper calls, and the
host service's result standing for `callOriginal`).  In-place mutation of
result payloads (`textSpan.start = ...`) becomes functional record update.
Trailing pass-through arguments that the wrappers forward unchanged and never
inspect (completion options, format settings, user preferences, error codes)
are elided from the embedding.
-/

namespace Lupos

/-- Modelled from the spec: the `Template` position model of
`src/template-service` is not present under `src/`; spec section 4.2 gives
`globalToLocal(o) = o - start`, `localToGlobal(o) = o + start`, and
`intersectWith(s, e)` true iff the half-open range `[s, e)` overlaps the
template's `[start, end)`.  Offsets are modelled as natural numbers. -/
structure Template where
  start : Nat
  end_ : Nat
  deriving DecidableEq, Repr

/-- Modelled from the spec: `globalToLocal(o) = o - start`. -/
def Template.globalOffsetToLocal (t : Template) (o : Nat) : Nat :=
  o - t.start

/-- Modelled from the spec: `localToGlobal(o) = o + start`. -/
def Template.localOffsetToGlobal (t : Template) (o : Nat) : Nat :=
  o + t.start

/-- Modelled from the spec: `intersectWith(s, e)` is true iff `[s, e)`
overlaps `[start, end)`. -/
def Template.intersectWith (t : Template) (s e : Nat) : Bool :=
  s < t.end_ && t.start < e

/-- Modelled from the spec: the Template Locator (`TemplateProvider` in the
source, from `src/template-service`, not present under `src/`).
`getTemplateAt` returns the unique template containing a global offset, or
none; `getAllTemplates` returns every template of a document. -/
structure TemplateProvider where
  getTemplateAt : String → Nat → Option Template
  getAllTemplates : String → List Template

/-- `TS.TextSpan`: a start offset and a length. -/
structure TextSpan where
  start : Nat
  length : Nat
  deriving DecidableEq, Repr

/-- `TS.CompletionEntry`, restricted to the fields the decorator and the lupos
completion service read or write.  `replacementSpan` is optional in the host
API. -/
structure CompletionEntry where
  name : String
  kind : String
  sortText : String
  insertText : String
  replacementSpan : Option TextSpan
  deriving DecidableEq, Repr

/-- `TS.CompletionInfo`, restricted to the fields the code reads or writes. -/
structure CompletionInfo where
  isGlobalCompletion : Bool
  isMemberCompletion : Bool
  isNewIdentifierLocation : Bool
  entries : List CompletionEntry
  deriving DecidableEq, Repr

/-- `TS.QuickInfo`.  The span is modelled as optional because
`translateTextSpan` accepts `TS.TextSpan | undefined` and leaves an absent
span absent. -/
structure QuickInfo where
  kind : String
  textSpan : Option TextSpan
  documentation : String
  deriving DecidableEq, Repr

/-- `TS.Diagnostic`, restricted to the fields the decorator touches; `start`
is read through a non-null assertion in the source, so it is modelled as
present. -/
structure Diagnostic where
  start : Nat
  length : Nat
  code : Nat
  messageText : String
  deriving DecidableEq, Repr

/-- `TS.TextChange`: one text edit bearing one span. -/
structure TextChange where
  span : Option TextSpan
  newText : String
  deriving DecidableEq, Repr

/-- `TS.FileTextChanges`: the edits of one code-fix action for one file. -/
structure FileTextChanges where
  fileName : String
  textChanges : List TextChange
  deriving DecidableEq, Repr

/-- `TS.CodeFixAction`, restricted to the fields the decorator touches. -/
structure CodeFixAction where
  fixName : String
  description : String
  changes : List FileTextChanges
  deriving DecidableEq, Repr

/-- The definition part of a `TS.ReferencedSymbol`. -/
structure ReferencedSymbolDefinition where
  fileName : String
  textSpan : Option TextSpan
  deriving DecidableEq, Repr

/-- `TS.ReferencedSymbol`: a definition plus reference entries (whose own
spans the decorator never touches). -/
structure ReferencedSymbol where
  definition : ReferencedSymbolDefinition
  references : List TextSpan
  deriving DecidableEq, Repr

/-- `TSLanguageServiceProxy.translateTextSpan` (decorator.ts lines 110-115):
`if (textSpan) textSpan.start = template.localOffsetToGlobal(textSpan.start)`.
The in-place mutation under an undefined-guard becomes an `Option`-valued
function: an absent span stays absent, a present span has only its `start`
rewritten. -/
def translateTextSpan (textSpan : Option TextSpan) (template : Template) :
    Option TextSpan :=
  match textSpan with
  | none => none
  | some s => some { s with start := template.localOffsetToGlobal s.start }

/-- The wrapper body installed by `wrapGetCompletionsAtPosition`
(decorator.ts lines 87-107).  `svcGetCompletions` is the template service's
optional `getCompletionsAtPosition` capability, re-checked inside the wrapper
body exactly as in the source; `host` stands for `callOriginal()`. -/
def getCompletionsAtPositionWrapped (tp : TemplateProvider)
    (svcGetCompletions : Option (Template → Nat → Option CompletionInfo))
    (host : Option CompletionInfo)
    (fileName : String) (gloOffset : Nat) : Option CompletionInfo :=
  match tp.getTemplateAt fileName gloOffset with
  | none => host
  | some template =>
    match svcGetCompletions with
    | some handler =>
      let temOffset := template.globalOffsetToLocal gloOffset
      let info := handler template temOffset
      match info with
      | some i =>
        some { i with entries := i.entries.map (fun entry =>
          { entry with
            replacementSpan := translateTextSpan entry.replacementSpan template }) }
      | none => none
    | none => none

/-- The wrapper body installed by `wrapGetQuickInfoAtPosition`
(decorator.ts lines 145-164).  The wrapper is only installed when the template
service implements `getQuickInfoAtPosition` (line 141), and the handler is
called through a non-null assertion (line 154), so the handler is passed as a
plain function; but the guard inside the wrapper body (line 152) tests
presence of `getCompletionEntryDetails`, which is modelled by the separate
boolean `hasGetCompletionEntryDetails`. -/
def getQuickInfoAtPositionWrapped (tp : TemplateProvider)
    (hasGetCompletionEntryDetails : Bool)
    (getQuickInfo : Template → Nat → Option QuickInfo)
    (host : Option QuickInfo)
    (fileName : String) (gloOffset : Nat) : Option QuickInfo :=
  match tp.getTemplateAt fileName gloOffset with
  | none => host
  | some template =>
    if hasGetCompletionEntryDetails then
      let temOffset := template.globalOffsetToLocal gloOffset
      let info := getQuickInfo template temOffset
      match info with
      | some i => some { i with textSpan := translateTextSpan i.textSpan template }
      | none => none
    else
      none

/-- The wrapper body installed by `wrapGetSyntacticDiagnostics`
(decorator.ts lines 210-225).  The loop computes and position-translates each
template's diagnostics into `subDiagnostics`, but then executes
`diagnostics.push(...diagnostics)` (line 220) — appending the accumulator to
itself instead of appending `subDiagnostics`.  The embedding reproduces that
step verbatim as `diagnostics ++ diagnostics`. -/
def getSyntacticDiagnosticsWrapped (tp : TemplateProvider)
    (getSyn : Template → List Diagnostic)
    (host : List Diagnostic) (fileName : String) : List Diagnostic :=
  let diagnostics := (tp.getAllTemplates fileName).foldl
    (fun diagnostics template =>
      let _subDiagnostics := (getSyn template).map (fun d =>
        { d with start := template.localOffsetToGlobal d.start })
      diagnostics ++ diagnostics) []
  host ++ diagnostics

/-- The wrapper body installed by `wrapGetSemanticDiagnostics`
(decorator.ts lines 233-248): every template of the document is visited,
each diagnostic's `start` is translated to global, and the translated
diagnostics are appended after the host's. -/
def getSemanticDiagnosticsWrapped (tp : TemplateProvider)
    (getSem : Template → List Diagnostic)
    (host : List Diagnostic) (fileName : String) : List Diagnostic :=
  let diagnostics := (tp.getAllTemplates fileName).foldl
    (fun diagnostics template =>
      let subDiagnostics := (getSem template).map (fun d =>
        { d with start := template.localOffsetToGlobal d.start })
      diagnostics ++ subDiagnostics) []
  host ++ diagnostics

/-- The wrapper body installed by `wrapGetFormattingEditsForRange`
(decorator.ts lines 256-275): templates whose range does not intersect the
requested `[gloStart, gloEnd)` are skipped; for the others the handler is
invoked at local offsets and each change's span is translated to global, the
results appended after the host's. -/
def getFormattingEditsForRangeWrapped (tp : TemplateProvider)
    (getFmt : Template → Nat → Nat → List TextChange)
    (host : List TextChange)
    (fileName : String) (gloStart gloEnd : Nat) : List TextChange :=
  let changes := (tp.getAllTemplates fileName).foldl
    (fun changes template =>
      if !(template.intersectWith gloStart gloEnd) then
        changes
      else
        let temStart := template.globalOffsetToLocal gloStart
        let temEnd := template.globalOffsetToLocal gloEnd
        changes ++ (getFmt template temStart temEnd).map (fun change =>
          { change with span := translateTextSpan change.span template })) []
  host ++ changes

/-- The wrapper body installed by `wrapGetCodeFixesAtPosition`
(decorator.ts lines 283-310): templates not intersecting the requested range
are skipped; for the others the handler is invoked at local offsets and, for
every action, the span of every text change of every file change is
translated to global; the actions are appended after the host's. -/
def getCodeFixesAtPositionWrapped (tp : TemplateProvider)
    (getFix : Template → Nat → Nat → List CodeFixAction)
    (host : List CodeFixAction)
    (fileName : String) (gloStart gloEnd : Nat) : List CodeFixAction :=
  let actions := (tp.getAllTemplates fileName).foldl
    (fun actions template =>
      if !(template.intersectWith gloStart gloEnd) then
        actions
      else
        let temStart := template.globalOffsetToLocal gloStart
        let temEnd := template.globalOffsetToLocal gloEnd
        actions ++ (getFix template temStart temEnd).map (fun action =>
          { action with changes := action.changes.map (fun fileChange =>
            { fileChange with textChanges := fileChange.textChanges.map (fun change =>
              { change with span := translateTextSpan change.span template }) }) })) []
  host ++ actions

/-- The wrapper body installed by `wrapGetReferencesAtPosition`
(decorator.ts lines 379-396), registered under the surface name
`findReferences` while presence of `getReferencesAtPosition` decides
installation: when a template contains the offset, the handler's symbols are
returned with each symbol's definition span translated to global, replacing
the host result. -/
def getReferencesAtPositionWrapped (tp : TemplateProvider)
    (getRefs : Template → Nat → Option (List ReferencedSymbol))
    (host : Option (List ReferencedSymbol))
    (fileName : String) (gloOffset : Nat) : Option (List ReferencedSymbol) :=
  match tp.getTemplateAt fileName gloOffset with
  | none => host
  | some context =>
    let temOffset := context.globalOffsetToLocal gloOffset
    let symbols := getRefs context temOffset
    match symbols with
    | some syms =>
      some (syms.map (fun symbol =>
        { symbol with definition :=
          { symbol.definition with
            textSpan := translateTextSpan symbol.definition.textSpan context } }))
    | none => none

/-- The global registry holder: `ts.getSupportedCodeFixes` as mutable
process-wide state, modelled as a record holding the current enumeration
function. -/
structure TsGlobal where
  getSupportedCodeFixes : Unit → List String

/-- `wrapGetSupportedCodeFixes` (decorator.ts lines 313-327): when the
template service implements `getSupportedCodeFixes`, the global enumeration is
replaced once, at construction, by a closure over the previously bound
original that appends the template-supplied identifiers converted to strings
(`String(x)`). -/
def wrapGetSupportedCodeFixes (tsg : TsGlobal)
    (svcGetSupportedCodeFixes : Option (Unit → List Nat)) : TsGlobal :=
  match svcGetSupportedCodeFixes with
  | none => tsg
  | some g =>
    let callOriginal := tsg.getSupportedCodeFixes
    { getSupportedCodeFixes := fun u => callOriginal u ++ (g u).map (fun x => toString x) }

/-- Results of `n` successive reads of the global supported-code-fixes
enumeration; each read is a pure call of the currently installed function and
does not change the installed function. -/
def readSupportedCodeFixes (tsg : TsGlobal) : Nat → List (List String)
  | 0 => []
  | n + 1 => tsg.getSupportedCodeFixes () :: readSupportedCodeFixes tsg n

/-- Which operations the template service implements: the capability record
behind the `if (!this.templateService.X) return` guards at the head of each
`wrapX` method. -/
structure TemplateServiceCapabilities where
  getCompletionsAtPosition : Bool
  getCompletionEntryDetails : Bool
  getQuickInfoAtPosition : Bool
  getDefinitionAtPosition : Bool
  getDefinitionAndBoundSpan : Bool
  getSemanticDiagnostics : Bool
  getSyntacticDiagnostics : Bool
  getFormattingEditsForRange : Bool
  getCodeFixesAtPosition : Bool
  getSupportedCodeFixes : Bool
  getSignatureHelpItemsAtPosition : Bool
  getOutliningSpans : Bool
  getReferencesAtPosition : Bool
  getJsxClosingTagAtPosition : Bool
  deriving DecidableEq, Repr

/-- The surface names pushed into `this.wrappers` by the constructor
(decorator.ts lines 37-51), in constructor order, each guarded by the
corresponding capability.  `wrapGetSupportedCodeFixes` pushes no wrapper (it
patches the global registry instead), so it does not appear here.  Note the
two naming adaptations: `getSignatureHelpItems` is wrapped under presence of
`getSignatureHelpItemsAtPosition` (line 334), and `findReferences` under
presence of `getReferencesAtPosition` (line 379). -/
def composedWrapperNames (c : TemplateServiceCapabilities) : List String :=
  (if c.getCompletionsAtPosition then ["getCompletionsAtPosition"] else []) ++
  (if c.getCompletionEntryDetails then ["getCompletionEntryDetails"] else []) ++
  (if c.getQuickInfoAtPosition then ["getQuickInfoAtPosition"] else []) ++
  (if c.getDefinitionAtPosition then ["getDefinitionAtPosition"] else []) ++
  (if c.getDefinitionAndBoundSpan then ["getDefinitionAndBoundSpan"] else []) ++
  (if c.getSemanticDiagnostics then ["getSemanticDiagnostics"] else []) ++
  (if c.getSyntacticDiagnostics then ["getSyntacticDiagnostics"] else []) ++
  (if c.getFormattingEditsForRange then ["getFormattingEditsForRange"] else []) ++
  (if c.getCodeFixesAtPosition then ["getCodeFixesAtPosition"] else []) ++
  (if c.getSignatureHelpItemsAtPosition then ["getSignatureHelpItems"] else []) ++
  (if c.getOutliningSpans then ["getOutliningSpans"] else []) ++
  (if c.getReferencesAtPosition then ["findReferences"] else []) ++
  (if c.getJsxClosingTagAtPosition then ["getJsxClosingTagAtPosition"] else [])

/-- The fourteen interception points set up by the constructor, in
constructor order: the thirteen wrap-based ones under their wrapped surface
name, plus the global-registry patch performed by `wrapGetSupportedCodeFixes`
under `getSupportedCodeFixes`.  Each is installed only when the corresponding
template-service capability is present. -/
def installedInterceptionNames (c : TemplateServiceCapabilities) : List String :=
  (if c.getCompletionsAtPosition then ["getCompletionsAtPosition"] else []) ++
  (if c.getCompletionEntryDetails then ["getCompletionEntryDetails"] else []) ++
  (if c.getQuickInfoAtPosition then ["getQuickInfoAtPosition"] else []) ++
  (if c.getDefinitionAtPosition then ["getDefinitionAtPosition"] else []) ++
  (if c.getDefinitionAndBoundSpan then ["getDefinitionAndBoundSpan"] else []) ++
  (if c.getSemanticDiagnostics then ["getSemanticDiagnostics"] else []) ++
  (if c.getSyntacticDiagnostics then ["getSyntacticDiagnostics"] else []) ++
  (if c.getFormattingEditsForRange then ["getFormattingEditsForRange"] else []) ++
  (if c.getCodeFixesAtPosition then ["getCodeFixesAtPosition"] else []) ++
  (if c.getSupportedCodeFixes then ["getSupportedCodeFixes"] else []) ++
  (if c.getSignatureHelpItemsAtPosition then ["getSignatureHelpItems"] else []) ++
  (if c.getOutliningSpans then ["getOutliningSpans"] else []) ++
  (if c.getReferencesAtPosition then ["findReferences"] else []) ++
  (if c.getJsxClosingTagAtPosition then ["getJsxClosingTagAtPosition"] else [])

/-- `TSLanguageServiceProxy.decorate` (decorator.ts lines 54-72): a map from
wrapped operation names to wrapper closures is built from `this.wrappers`,
and the returned proxy serves `wrappedService.get(property) ?? target[property]`.
`wrapperOf` supplies the wrapper closure for a wrapped name; `host` is the raw
language service. -/
def decorate {α : Type} (c : TemplateServiceCapabilities)
    (wrapperOf : String → α) (host : String → α) : String → α :=
  fun name =>
    match ((composedWrapperNames c).map (fun n => (n, wrapperOf n))).lookup name with
    | some f => f
    | none => host name

/-- The `CompletionItem` of `src/packages/lupos-server/src/complete-data/types.ts`:
a name and description, optional replacement-range overrides `start`/`end`,
an optional sort order and an optional script-element kind. -/
structure CompletionItem where
  name : String
  description : String
  start : Option Nat
  end_ : Option Nat
  order : Option Nat
  kind : Option String
  deriving DecidableEq, Repr

/-- The entry-building map step of `LuposCompletion.makeCompletionInfo`
(part_000 lines 302-319): each item becomes an entry whose `sortText` and
`insertText` are the item's name and whose `replacementSpan` covers
`item.start ?? part.start` to `item.end ?? part.end`.  `kindOf` stands for
the external `getScriptElementKind(item, part, location)` utility. -/
def makeCompletionEntries (items : List CompletionItem)
    (partStart partEnd : Nat) (kindOf : CompletionItem → String) :
    List CompletionEntry :=
  items.map (fun item =>
    let kind := kindOf item
    let start := item.start.getD partStart
    let end_ := item.end_.getD partEnd
    let replacementSpan : TextSpan := { start := start, length := end_ - start }
    { name := item.name
      kind := kind
      sortText := item.name
      insertText := item.name
      replacementSpan := some replacementSpan })

/-- The repetitive-item filter of `LuposCompletion.makeCompletionInfo`
(part_000 lines 300, 322-329): a JS `filter` over a mutable `names` set that
keeps an entry only when its name has not been seen yet, modelled with the
seen set threaded explicitly. -/
def filterRepetitive (seen : List String) :
    List CompletionEntry → List CompletionEntry
  | [] => []
  | e :: rest =>
    if e.name ∈ seen then
      filterRepetitive seen rest
    else
      e :: filterRepetitive (e.name :: seen) rest

/-- `LuposCompletion.makeCompletionInfo` (part_000 lines 291-337). -/
def makeCompletionInfo (items : Option (List CompletionItem))
    (partStart partEnd : Nat) (kindOf : CompletionItem → String) :
    Option CompletionInfo :=
  match items with
  | none => none
  | some items =>
    let entries := makeCompletionEntries items partStart partEnd kindOf
    let entries := filterRepetitive [] entries
    some { isGlobalCompletion := false
           isMemberCompletion := false
           isNewIdentifierLocation := false
           entries := entries }

/-! ### Shared helper lemmas -/

/-- Looking up a name absent from the wrapped-service map falls through to
`none`. -/
theorem lookup_map_pair_eq_none {α : Type} (w : String → α) (l : List String)
    (name : String) (h : name ∉ l) :
    (l.map (fun n => (n, w n))).lookup name = none := by
  induction l with
  | nil => rfl
  | cons a as ih =>
    simp only [List.mem_cons, not_or] at h
    simp only [List.map_cons, List.lookup_cons]
    have hne : (name == a) = false := by
      simp [h.1]
    simp [hne, ih h.2]

/-- A fold that appends `f t` for every element is the initial list followed
by the concatenation of all the `f t`. -/
theorem foldl_append_flatMap {α β : Type} (f : α → List β) (l : List α)
    (init : List β) :
    l.foldl (fun acc t => acc ++ f t) init = init ++ l.flatMap f := by
  induction l generalizing init with
  | nil => simp
  | cons t ts ih => simp [ih, List.append_assoc]

/-- A fold that appends `f t` only for elements passing `p` (skipping the
rest, as the `continue` in the source loops does) is the initial list
followed by the concatenation of `f` over the filtered list. -/
theorem foldl_filter_append_flatMap {α β : Type} (p : α → Bool)
    (f : α → List β) (l : List α) (init : List β) :
    l.foldl (fun acc t => if !(p t) then acc else acc ++ f t) init
      = init ++ (l.filter p).flatMap f := by
  induction l generalizing init with
  | nil => simp
  | cons t ts ih =>
    simp only [Bool.not_eq_true'] at ih ⊢
    by_cases h : p t <;> simp [h, ih, List.append_assoc]

/-- Appending the accumulator to itself, starting from the empty list, keeps
it empty forever. -/
theorem foldl_self_append_nil {α β : Type} (l : List α) :
    l.foldl (fun (acc : List β) _ => acc ++ acc) [] = [] := by
  induction l with
  | nil => rfl
  | cons t ts ih => simpa using ih

/-- Membership in one capability-guarded singleton of the interception
lists. -/
theorem mem_capability_guard (b : Bool) (s name : String) :
    (name ∈ (if b then [s] else [])) ↔ (b = true ∧ name = s) := by
  cases b <;> simp

/-- Every entry surviving the repetitive-item filter occurs among the
original entries. -/
theorem filterRepetitive_subset (seen : List String)
    (l : List CompletionEntry) :
    ∀ e ∈ filterRepetitive seen l, e ∈ l := by
  induction l generalizing seen with
  | nil => intro e he; simp [filterRepetitive] at he
  | cons a as ih =>
    intro e he
    simp only [filterRepetitive] at he
    by_cases h : a.name ∈ seen
    · simp only [if_pos h] at he
      exact List.mem_cons_of_mem a (ih seen e he)
    · simp only [if_neg h] at he
      rcases List.mem_cons.mp he with h1 | h2
      · exact h1 ▸ List.mem_cons_self a as
      · exact List.mem_cons_of_mem a (ih (a.name :: seen) e h2)

/-- The names surviving the repetitive-item filter avoid the seen set and are
pairwise distinct. -/
theorem filterRepetitive_nodup (seen : List String)
    (l : List CompletionEntry) :
    ((filterRepetitive seen l).map (fun e => e.name)).Nodup
      ∧ ∀ e ∈ filterRepetitive seen l, e.name ∉ seen := by
  induction l generalizing seen with
  | nil => simp [filterRepetitive]
  | cons a as ih =>
    by_cases h : a.name ∈ seen
    · simp only [filterRepetitive, if_pos h]
      exact ih seen
    · simp only [filterRepetitive, if_neg h]
      refine ⟨?_, ?_⟩
      · simp only [List.map_cons, List.nodup_cons]
        refine ⟨?_, (ih (a.name :: seen)).1⟩
        intro hmem
        rcases List.mem_map.mp hmem with ⟨e, he, hname⟩
        have := (ih (a.name :: seen)).2 e he
        exact this (hname ▸ List.mem_cons_self a.name seen)
      · intro e he
        rcases List.mem_cons.mp he with h1 | h2
        · exact h1 ▸ h
        · have := (ih (a.name :: seen)).2 e h2
          intro hc
          exact this (List.mem_cons_of_mem _ hc)

/-- The repetitive-item filter keeps exactly the first entry bearing each
name: searching the filtered list for a name not yet seen finds the same
entry as searching the unfiltered list. -/
theorem filterRepetitive_find (seen : List String)
    (l : List CompletionEntry) (n : String) (hn : n ∉ seen) :
    (filterRepetitive seen l).find? (fun e => e.name == n)
      = l.find? (fun e => e.name == n) := by
  induction l generalizing seen with
  | nil => simp [filterRepetitive]
  | cons a as ih =>
    by_cases hname : a.name = n
    · have hns : a.name ∉ seen := hname ▸ hn
      simp only [filterRepetitive, if_neg hns]
      simp [List.find?_cons, hname]
    · have hbeq : (a.name == n) = false := by simp [hname]
      by_cases h : a.name ∈ seen
      · simp only [filterRepetitive, if_pos h]
        rw [ih seen hn]
        simp [List.find?_cons, hbeq]
      · simp only [filterRepetitive, if_neg h]
        have hn2 : n ∉ a.name :: seen := by
          simp only [List.mem_cons, not_or]
          exact ⟨fun hc => hname hc.symm, hn⟩
        simp only [List.find?_cons, hbeq]
        exact ih (a.name :: seen) hn2

/-- Translating an optional span equals mapping the start-rewrite over it. -/
theorem translateTextSpan_eq_map (sp : Option TextSpan) (t : Template) :
    translateTextSpan sp t
      = sp.map (fun s => { start := t.localOffsetToGlobal s.start, length := s.length }) := by
  cases sp <;> rfl

/-! ### Example data used by witnesses and concrete evaluations -/

/-- Example template spanning global offsets `[5, 16)`. -/
def exTemplate : Template := { start := 5, end_ := 16 }

/-- Example provider: document `a.ts` holds the single template `exTemplate`. -/
def exProvider : TemplateProvider :=
  { getTemplateAt := fun fileName o =>
      if fileName = "a.ts" ∧ 5 ≤ o ∧ o < 16 then some exTemplate else none
    getAllTemplates := fun fileName =>
      if fileName = "a.ts" then [exTemplate] else [] }

/-- Example completion entry with a template-local replacement span. -/
def exEntry : CompletionEntry :=
  { name := "flit"
    kind := "property"
    sortText := "flit"
    insertText := "flit"
    replacementSpan := some { start := 2, length := 4 } }

/-- Example completion info returned by the template handler. -/
def exCompletionInfo : CompletionInfo :=
  { isGlobalCompletion := false
    isMemberCompletion := false
    isNewIdentifierLocation := true
    entries := [exEntry] }

/-- Example host completion info, distinct from any template result. -/
def exHostCompletionInfo : CompletionInfo :=
  { isGlobalCompletion := true
    isMemberCompletion := false
    isNewIdentifierLocation := false
    entries := [] }

/-- Example template completion handler: answers at local offset 2 only. -/
def exCompletionsHandler : Template → Nat → Option CompletionInfo :=
  fun _ temOffset => if temOffset = 2 then some exCompletionInfo else none

/-- Example template diagnostics handler: one diagnostic at local offset 3. -/
def exDiagHandler : Template → List Diagnostic :=
  fun _ => [{ start := 3, length := 2, code := 100, messageText := "bad" }]

/-- Example host diagnostic. -/
def exHostDiagnostic : Diagnostic :=
  { start := 0, length := 1, code := 7, messageText := "host" }

/-- The diagnostic `exDiagHandler` reports, translated into global offsets of
`exTemplate`. -/
def exTranslatedDiagnostic : Diagnostic :=
  { start := 8, length := 2, code := 100, messageText := "bad" }

/-- Example quick-info payload returned by the template handler. -/
def exQuickInfo : QuickInfo :=
  { kind := "var", textSpan := some { start := 2, length := 3 }, documentation := "doc" }

/-- Example host quick-info payload. -/
def exHostQuickInfo : QuickInfo :=
  { kind := "hostvar", textSpan := some { start := 0, length := 1 }, documentation := "host" }

/-- Example template quick-info handler: always answers. -/
def exQuickInfoHandler : Template → Nat → Option QuickInfo :=
  fun _ _ => some exQuickInfo

/-! ### Claim theorems -/

/-- Claim C1: for `getCompletionsAtPosition` on the composite service, when no
template contains the global offset the host result is returned unchanged;
when a template contains it, only the template-aware handler is consulted at
the local offset, each returned entry's `replacementSpan.start` is translated
back to global, its (possibly absent) result is returned, and the host result
is never consulted — a `none` handler result still yields `none`. -/
theorem getCompletionsAtPosition_replace_policy
    (tp : TemplateProvider) (handler : Template → Nat → Option CompletionInfo)
    (host hostB : Option CompletionInfo) (fileName : String) (gloOffset : Nat) :
    (tp.getTemplateAt fileName gloOffset = none →
      getCompletionsAtPositionWrapped tp (some handler) host fileName gloOffset = host)
    ∧ (∀ t, tp.getTemplateAt fileName gloOffset = some t →
        getCompletionsAtPositionWrapped tp (some handler) host fileName gloOffset
          = getCompletionsAtPositionWrapped tp (some handler) hostB fileName gloOffset
        ∧ (handler t (t.globalOffsetToLocal gloOffset) = none →
            getCompletionsAtPositionWrapped tp (some handler) host fileName gloOffset = none)
        ∧ (∀ info, handler t (t.globalOffsetToLocal gloOffset) = some info →
            getCompletionsAtPositionWrapped tp (some handler) host fileName gloOffset
              = some { info with entries := info.entries.map (fun e =>
                  { e with replacementSpan := e.replacementSpan.map (fun s =>
                      { start := t.localOffsetToGlobal s.start, length := s.length }) }) })) := by
  refine ⟨?_, ?_⟩
  · intro h
    simp [getCompletionsAtPositionWrapped, h]
  · intro t ht
    refine ⟨?_, ?_, ?_⟩
    · simp [getCompletionsAtPositionWrapped, ht]
    · intro hh
      simp [getCompletionsAtPositionWrapped, ht, hh]
    · intro info hh
      have hfun : (fun e : CompletionEntry =>
            { e with replacementSpan := translateTextSpan e.replacementSpan t })
          = (fun e : CompletionEntry =>
            { e with replacementSpan := e.replacementSpan.map (fun s =>
                { start := t.localOffsetToGlobal s.start, length := s.length }) }) := by
        funext e
        rw [translateTextSpan_eq_map]
      simp [getCompletionsAtPositionWrapped, ht, hh, hfun]

/-- Witness for claim C1 at the concrete example: offset 7 falls inside
`exTemplate`, the handler answers at local offset 2, and the composite result
is the handler's info with the replacement span moved to global offset 7. -/
theorem getCompletionsAtPosition_replace_policy_witness :
    getCompletionsAtPositionWrapped exProvider (some exCompletionsHandler)
        (some exHostCompletionInfo) "a.ts" 7
      = some { exCompletionInfo with entries := [{ exEntry with
          replacementSpan := some { start := 7, length := 4 } }] } := by
  have h := ((getCompletionsAtPosition_replace_policy exProvider exCompletionsHandler
      (some exHostCompletionInfo) none "a.ts" 7).2 exTemplate (by decide)).2.2
      exCompletionInfo (by decide)
  rw [h]
  decide

/-- Claim C8: `translateTextSpan` rewrites only the `start` field — a present
span keeps its `length` and gets `start` mapped through
`localOffsetToGlobal`, an absent span stays absent — and the containing
results keep all their other fields when the decorator rewrites a span in
place. -/
theorem translateTextSpan_frame (template : Template) :
    (∀ s : TextSpan, translateTextSpan (some s) template
        = some { start := template.localOffsetToGlobal s.start, length := s.length })
    ∧ translateTextSpan none template = none
    ∧ (∀ i : QuickInfo,
        ({ i with textSpan := translateTextSpan i.textSpan template } : QuickInfo).kind = i.kind
        ∧ ({ i with textSpan := translateTextSpan i.textSpan template } : QuickInfo).documentation
            = i.documentation)
    ∧ (∀ e : CompletionEntry,
        ({ e with replacementSpan := translateTextSpan e.replacementSpan template }
            : CompletionEntry).name = e.name
        ∧ ({ e with replacementSpan := translateTextSpan e.replacementSpan template }
            : CompletionEntry).kind = e.kind
        ∧ ({ e with replacementSpan := translateTextSpan e.replacementSpan template }
            : CompletionEntry).sortText = e.sortText
        ∧ ({ e with replacementSpan := translateTextSpan e.replacementSpan template }
            : CompletionEntry).insertText = e.insertText) :=
  ⟨fun _ => rfl, rfl, fun _ => ⟨rfl, rfl⟩, fun _ => ⟨rfl, rfl, rfl, rfl⟩⟩

/-- Claim C2 (defect): the syntactic-diagnostics wrapper executes
`diagnostics.push(...diagnostics)` (decorator.ts line 220), concatenating the
accumulator into itself instead of the freshly translated per-template
diagnostics, so the accumulator stays empty: on a document with one template
whose handler reports one diagnostic, the composite result equals the host
result alone and misses the translated template diagnostic the claim
requires. -/
theorem getSyntacticDiagnostics_accumulator_defect :
    getSyntacticDiagnosticsWrapped exProvider exDiagHandler [exHostDiagnostic] "a.ts"
      = [exHostDiagnostic]
    ∧ exDiagHandler exTemplate = [{ start := 3, length := 2, code := 100, messageText := "bad" }]
    ∧ getSyntacticDiagnosticsWrapped exProvider exDiagHandler [exHostDiagnostic] "a.ts"
      ≠ [exHostDiagnostic, exTranslatedDiagnostic] := by
  refine ⟨by decide, by decide, ?_⟩
  decide

/-- Claim C5 (defect): the quick-info wrapper's inner guard tests presence of
`getCompletionEntryDetails` (decorator.ts line 152) although the operation
wrapped and called is `getQuickInfoAtPosition` (lines 141 and 154): with a
template service implementing `getQuickInfoAtPosition` but not
`getCompletionEntryDetails`, a position inside a template yields `none` even
though the handler would have produced a result, contradicting the claim that
the handler's translated result is returned. -/
theorem getQuickInfoAtPosition_guard_defect :
    getQuickInfoAtPositionWrapped exProvider false exQuickInfoHandler
        (some exHostQuickInfo) "a.ts" 7 = none
    ∧ exQuickInfoHandler exTemplate (exTemplate.globalOffsetToLocal 7) = some exQuickInfo
    ∧ getQuickInfoAtPositionWrapped exProvider true exQuickInfoHandler
        (some exHostQuickInfo) "a.ts" 7
      = some { exQuickInfo with textSpan := some { start := 7, length := 3 } } := by
  refine ⟨by decide, by decide, by decide⟩

/-- Claim C3: for `getSemanticDiagnostics`, the composite result is the
host's diagnostics followed by, for every template of the document, the
handler's diagnostics with `start` translated to global; hence when at least
one template exists and every template's handler yields at least one item,
the composite result is strictly longer than the host-only result. -/
theorem getSemanticDiagnostics_merge (tp : TemplateProvider)
    (getSem : Template → List Diagnostic) (host : List Diagnostic)
    (fileName : String) :
    getSemanticDiagnosticsWrapped tp getSem host fileName
      = host ++ (tp.getAllTemplates fileName).flatMap (fun t =>
          (getSem t).map (fun d => { d with start := t.localOffsetToGlobal d.start }))
    ∧ (tp.getAllTemplates fileName ≠ [] →
       (∀ t ∈ tp.getAllTemplates fileName, getSem t ≠ []) →
       host.length < (getSemanticDiagnosticsWrapped tp getSem host fileName).length) := by
  have hmain : getSemanticDiagnosticsWrapped tp getSem host fileName
      = host ++ (tp.getAllTemplates fileName).flatMap (fun t =>
          (getSem t).map (fun d => { d with start := t.localOffsetToGlobal d.start })) := by
    simp only [getSemanticDiagnosticsWrapped]
    rw [foldl_append_flatMap]
    simp
  refine ⟨hmain, ?_⟩
  intro hne hall
  rcases List.exists_cons_of_ne_nil hne with ⟨t0, ts, heq⟩
  have h0 : getSem t0 ≠ [] := hall t0 (heq ▸ List.mem_cons_self t0 ts)
  have h1 : 0 < (getSem t0).length := List.length_pos.mpr h0
  rw [hmain, heq]
  simp only [List.flatMap_cons, List.length_append, List.length_map]
  omega

/-- Witness for claim C3 at the concrete example: one template, one host
diagnostic, one template diagnostic; the merged result appends the translated
template diagnostic after the host's and is strictly longer than the
host-only list. -/
theorem getSemanticDiagnostics_merge_witness :
    getSemanticDiagnosticsWrapped exProvider exDiagHandler [exHostDiagnostic] "a.ts"
      = [exHostDiagnostic, exTranslatedDiagnostic]
    ∧ ([exHostDiagnostic] : List Diagnostic).length
      < (getSemanticDiagnosticsWrapped exProvider exDiagHandler [exHostDiagnostic] "a.ts").length := by
  have h := getSemanticDiagnostics_merge exProvider exDiagHandler [exHostDiagnostic] "a.ts"
  refine ⟨?_, h.2 (by decide) (by decide)⟩
  rw [h.1]
  decide

/-- Claim C4: for `getFormattingEditsForRange` and `getCodeFixesAtPosition`,
templates whose range does not intersect the requested global `[start, end)`
are skipped (the handler is not consulted for them and they contribute
nothing), and every intersecting template's handler results are appended
after the host's with every nested text-span start translated to global —
for code fixes, the span of every text change of every file change of every
action. -/
theorem range_filtered_merge (tp : TemplateProvider)
    (getFmt : Template → Nat → Nat → List TextChange)
    (getFix : Template → Nat → Nat → List CodeFixAction)
    (hostF : List TextChange) (hostC : List CodeFixAction)
    (fileName : String) (gloStart gloEnd : Nat) :
    getFormattingEditsForRangeWrapped tp getFmt hostF fileName gloStart gloEnd
      = hostF ++ ((tp.getAllTemplates fileName).filter
          (fun t => t.intersectWith gloStart gloEnd)).flatMap (fun t =>
            (getFmt t (t.globalOffsetToLocal gloStart) (t.globalOffsetToLocal gloEnd)).map
              (fun change => { change with span := translateTextSpan change.span t }))
    ∧ getCodeFixesAtPositionWrapped tp getFix hostC fileName gloStart gloEnd
      = hostC ++ ((tp.getAllTemplates fileName).filter
          (fun t => t.intersectWith gloStart gloEnd)).flatMap (fun t =>
            (getFix t (t.globalOffsetToLocal gloStart) (t.globalOffsetToLocal gloEnd)).map
              (fun action => { action with changes := action.changes.map (fun fc =>
                { fc with textChanges := fc.textChanges.map (fun change =>
                  { change with span := translateTextSpan change.span t }) }) }))
    ∧ (∀ g2 : Template → Nat → Nat → List TextChange,
        (∀ t ∈ tp.getAllTemplates fileName, t.intersectWith gloStart gloEnd = true →
          g2 t (t.globalOffsetToLocal gloStart) (t.globalOffsetToLocal gloEnd)
            = getFmt t (t.globalOffsetToLocal gloStart) (t.globalOffsetToLocal gloEnd)) →
        getFormattingEditsForRangeWrapped tp g2 hostF fileName gloStart gloEnd
          = getFormattingEditsForRangeWrapped tp getFmt hostF fileName gloStart gloEnd)
    ∧ (∀ g2 : Template → Nat → Nat → List CodeFixAction,
        (∀ t ∈ tp.getAllTemplates fileName, t.intersectWith gloStart gloEnd = true →
          g2 t (t.globalOffsetToLocal gloStart) (t.globalOffsetToLocal gloEnd)
            = getFix t (t.globalOffsetToLocal gloStart) (t.globalOffsetToLocal gloEnd)) →
        getCodeFixesAtPositionWrapped tp g2 hostC fileName gloStart gloEnd
          = getCodeFixesAtPositionWrapped tp getFix hostC fileName gloStart gloEnd) := by
  have hfmt : ∀ g : Template → Nat → Nat → List TextChange,
      getFormattingEditsForRangeWrapped tp g hostF fileName gloStart gloEnd
        = hostF ++ ((tp.getAllTemplates fileName).filter
            (fun t => t.intersectWith gloStart gloEnd)).flatMap (fun t =>
              (g t (t.globalOffsetToLocal gloStart) (t.globalOffsetToLocal gloEnd)).map
                (fun change => { change with span := translateTextSpan change.span t })) := by
    intro g
    simp only [getFormattingEditsForRangeWrapped]
    rw [foldl_filter_append_flatMap]
    simp
  have hfix : ∀ g : Template → Nat → Nat → List CodeFixAction,
      getCodeFixesAtPositionWrapped tp g hostC fileName gloStart gloEnd
        = hostC ++ ((tp.getAllTemplates fileName).filter
            (fun t => t.intersectWith gloStart gloEnd)).flatMap (fun t =>
              (g t (t.globalOffsetToLocal gloStart) (t.globalOffsetToLocal gloEnd)).map
                (fun action => { action with changes := action.changes.map (fun fc =>
                  { fc with textChanges := fc.textChanges.map (fun change =>
                    { change with span := translateTextSpan change.span t }) }) })) := by
    intro g
    simp only [getCodeFixesAtPositionWrapped]
    rw [foldl_filter_append_flatMap]
    simp
  refine ⟨hfmt getFmt, hfix getFix, ?_, ?_⟩
  · intro g2 hagree
    rw [hfmt g2, hfmt getFmt]
    congr 1
    refine List.flatMap_congr ?_
    intro t ht
    have hmem := List.mem_filter.mp ht
    rw [hagree t hmem.1 hmem.2]
  · intro g2 hagree
    rw [hfix g2, hfix getFix]
    congr 1
    refine List.flatMap_congr ?_
    intro t ht
    have hmem := List.mem_filter.mp ht
    rw [hagree t hmem.1 hmem.2]

/-- Example templates at the spec's ranges `[7, 16)` and `[43, 52)`. -/
def exTemplateA : Template := { start := 7, end_ := 16 }

/-- Second example template, entirely outside a `[0, 10)` request. -/
def exTemplateB : Template := { start := 43, end_ := 52 }

/-- Example provider holding the two templates of the spec's
range-filtering example. -/
def exTwoProvider : TemplateProvider :=
  { getTemplateAt := fun _ o =>
      if 7 ≤ o ∧ o < 16 then some exTemplateA
      else if 43 ≤ o ∧ o < 52 then some exTemplateB
      else none
    getAllTemplates := fun _ => [exTemplateA, exTemplateB] }

/-- Example formatting handler: one edit, tagged with the template's start. -/
def exFmtHandler : Template → Nat → Nat → List TextChange :=
  fun t _ _ => [{ span := some { start := 1, length := 2 }, newText := toString t.start }]

/-- A variant of `exFmtHandler` answering differently on `exTemplateB` only;
used to witness that skipped templates are never consulted. -/
def exFmtHandlerJunk : Template → Nat → Nat → List TextChange :=
  fun t s e =>
    if t = exTemplateB then [{ span := none, newText := "junk" }]
    else exFmtHandler t s e

/-- Example code-fix handler: one action with one file change and one edit. -/
def exFixHandler : Template → Nat → Nat → List CodeFixAction :=
  fun _ _ _ =>
    [{ fixName := "fix"
       description := "d"
       changes := [{ fileName := "a.ts"
                     textChanges := [{ span := some { start := 0, length := 1 }
                                       newText := "x" }] }] }]

/-- Witness for claim C4 at the spec's example: a `[0, 10)` request over
templates `[7, 16)` and `[43, 52)` takes edits only from the first template
(translated to global), contributes nothing from the second, and the result
does not change when the handler's answer on the skipped template changes. -/
theorem range_filtered_merge_witness :
    getFormattingEditsForRangeWrapped exTwoProvider exFmtHandler [] "a.ts" 0 10
      = [{ span := some { start := 8, length := 2 }, newText := "7" }]
    ∧ getFormattingEditsForRangeWrapped exTwoProvider exFmtHandlerJunk [] "a.ts" 0 10
      = getFormattingEditsForRangeWrapped exTwoProvider exFmtHandler [] "a.ts" 0 10
    ∧ getCodeFixesAtPositionWrapped exTwoProvider exFixHandler [] "a.ts" 0 10
      = [{ fixName := "fix"
           description := "d"
           changes := [{ fileName := "a.ts"
                         textChanges := [{ span := some { start := 7, length := 1 }
                                           newText := "x" }] }] }] := by
  have h := range_filtered_merge exTwoProvider exFmtHandler exFixHandler [] [] "a.ts" 0 10
  refine ⟨?_, h.2.2.1 exFmtHandlerJunk (by decide), ?_⟩
  · rw [h.1]
    decide
  · rw [h.2.1]
    decide

/-- Claim C6: operations without an installed wrapper are pure pass-through
on the composite service, and each of the fourteen interception points is
installed under its surface name exactly when the template service implements
the operation the constructor's guard checks (with the source's naming
adaptations: `getSignatureHelpItems` is guarded by
`getSignatureHelpItemsAtPosition`, `findReferences` by
`getReferencesAtPosition`, and `getSupportedCodeFixes` patches the global
registry instead of the proxy map). -/
theorem decorate_installation_passthrough {α : Type}
    (c : TemplateServiceCapabilities) (wrapperOf host : String → α) :
    (∀ name, name ∉ composedWrapperNames c →
        decorate c wrapperOf host name = host name)
    ∧ ("getCompletionsAtPosition" ∈ installedInterceptionNames c
        ↔ c.getCompletionsAtPosition = true)
    ∧ ("getCompletionEntryDetails" ∈ installedInterceptionNames c
        ↔ c.getCompletionEntryDetails = true)
    ∧ ("getQuickInfoAtPosition" ∈ installedInterceptionNames c
        ↔ c.getQuickInfoAtPosition = true)
    ∧ ("getDefinitionAtPosition" ∈ installedInterceptionNames c
        ↔ c.getDefinitionAtPosition = true)
    ∧ ("getDefinitionAndBoundSpan" ∈ installedInterceptionNames c
        ↔ c.getDefinitionAndBoundSpan = true)
    ∧ ("getSemanticDiagnostics" ∈ installedInterceptionNames c
        ↔ c.getSemanticDiagnostics = true)
    ∧ ("getSyntacticDiagnostics" ∈ installedInterceptionNames c
        ↔ c.getSyntacticDiagnostics = true)
    ∧ ("getFormattingEditsForRange" ∈ installedInterceptionNames c
        ↔ c.getFormattingEditsForRange = true)
    ∧ ("getCodeFixesAtPosition" ∈ installedInterceptionNames c
        ↔ c.getCodeFixesAtPosition = true)
    ∧ ("getSupportedCodeFixes" ∈ installedInterceptionNames c
        ↔ c.getSupportedCodeFixes = true)
    ∧ ("getSignatureHelpItems" ∈ installedInterceptionNames c
        ↔ c.getSignatureHelpItemsAtPosition = true)
    ∧ ("getOutliningSpans" ∈ installedInterceptionNames c
        ↔ c.getOutliningSpans = true)
    ∧ ("findReferences" ∈ installedInterceptionNames c
        ↔ c.getReferencesAtPosition = true)
    ∧ ("getJsxClosingTagAtPosition" ∈ installedInterceptionNames c
        ↔ c.getJsxClosingTagAtPosition = true) := by
  refine ⟨?_, ?_, ?_, ?_, ?_, ?_, ?_, ?_, ?_, ?_, ?_, ?_, ?_, ?_, ?_⟩
  · intro name h
    simp [decorate, lookup_map_pair_eq_none wrapperOf _ name h]
  all_goals
    simp [installedInterceptionNames, mem_capability_guard, List.mem_append]

/-- Example capability record: everything implemented except
`getCompletionEntryDetails`. -/
def exCaps : TemplateServiceCapabilities :=
  { getCompletionsAtPosition := true
    getCompletionEntryDetails := false
    getQuickInfoAtPosition := true
    getDefinitionAtPosition := true
    getDefinitionAndBoundSpan := true
    getSemanticDiagnostics := true
    getSyntacticDiagnostics := true
    getFormattingEditsForRange := true
    getCodeFixesAtPosition := true
    getSupportedCodeFixes := true
    getSignatureHelpItemsAtPosition := true
    getOutliningSpans := true
    getReferencesAtPosition := true
    getJsxClosingTagAtPosition := true }

/-- Witness for claim C6: with `exCaps`, a never-intercepted operation
(`getProgram`) and an operation whose capability is absent
(`getCompletionEntryDetails`) both pass through to the host, and the
find-references interception is installed. -/
theorem decorate_installation_passthrough_witness :
    decorate exCaps (fun _ => (1 : Nat)) (fun _ => 0) "getProgram" = 0
    ∧ decorate exCaps (fun _ => (1 : Nat)) (fun _ => 0) "getCompletionEntryDetails" = 0
    ∧ ("findReferences" ∈ installedInterceptionNames exCaps
        ↔ exCaps.getReferencesAtPosition = true) := by
  have h := decorate_installation_passthrough exCaps (fun _ => (1 : Nat)) (fun _ => 0)
  exact ⟨h.1 "getProgram" (by decide), h.1 "getCompletionEntryDetails" (by decide),
    h.2.2.2.2.2.2.2.2.2.2.2.2.2.1⟩

/-- Claim C7: `wrapGetSupportedCodeFixes` extends the process-wide
enumeration exactly once at construction — afterwards every read returns the
original host identifiers followed by the template-supplied identifiers
converted to strings, identically on every call, with no duplication growth
across repeated reads. -/
theorem supported_code_fixes_registry (tsg : TsGlobal) (g : Unit → List Nat) :
    (∀ u, (wrapGetSupportedCodeFixes tsg (some g)).getSupportedCodeFixes u
        = tsg.getSupportedCodeFixes u ++ (g u).map (fun x => toString x))
    ∧ (∀ n, readSupportedCodeFixes (wrapGetSupportedCodeFixes tsg (some g)) n
        = List.replicate n
            (tsg.getSupportedCodeFixes () ++ (g ()).map (fun x => toString x)))
    ∧ wrapGetSupportedCodeFixes tsg none = tsg := by
  refine ⟨fun _ => rfl, ?_, rfl⟩
  intro n
  induction n with
  | zero => rfl
  | succ n ih =>
    simp only [readSupportedCodeFixes, List.replicate_succ]
    rw [ih]
    rfl

/-- Claim C9: the find-references interception is installed on the composite
surface under the host's real name `findReferences` while presence of the
differently-named `getReferencesAtPosition` capability decides installation
(and `getReferencesAtPosition` itself is never a wrapped surface name); when
a template contains the offset, the handler's symbols replace the host result
with each symbol's definition span translated to global. -/
theorem findReferences_naming_and_replace (c : TemplateServiceCapabilities)
    (tp : TemplateProvider)
    (getRefs : Template → Nat → Option (List ReferencedSymbol))
    (host hostB : Option (List ReferencedSymbol))
    (fileName : String) (gloOffset : Nat) :
    ("findReferences" ∈ composedWrapperNames c ↔ c.getReferencesAtPosition = true)
    ∧ "getReferencesAtPosition" ∉ composedWrapperNames c
    ∧ (tp.getTemplateAt fileName gloOffset = none →
        getReferencesAtPositionWrapped tp getRefs host fileName gloOffset = host)
    ∧ (∀ t, tp.getTemplateAt fileName gloOffset = some t →
        getReferencesAtPositionWrapped tp getRefs host fileName gloOffset
          = getReferencesAtPositionWrapped tp getRefs hostB fileName gloOffset
        ∧ getReferencesAtPositionWrapped tp getRefs host fileName gloOffset
          = (getRefs t (t.globalOffsetToLocal gloOffset)).map (fun syms =>
              syms.map (fun symbol => { symbol with definition :=
                { symbol.definition with
                  textSpan := symbol.definition.textSpan.map (fun s =>
                    { start := t.localOffsetToGlobal s.start, length := s.length }) } }))) := by
  refine ⟨?_, ?_, ?_, ?_⟩
  · simp [composedWrapperNames, mem_capability_guard, List.mem_append]
  · simp [composedWrapperNames, mem_capability_guard, List.mem_append]
  · intro h
    simp [getReferencesAtPositionWrapped, h]
  · intro t ht
    constructor
    · simp [getReferencesAtPositionWrapped, ht]
    · have hfun : (fun symbol : ReferencedSymbol => { symbol with definition :=
            { symbol.definition with
              textSpan := translateTextSpan symbol.definition.textSpan t } })
          = (fun symbol : ReferencedSymbol => { symbol with definition :=
            { symbol.definition with
              textSpan := symbol.definition.textSpan.map (fun s =>
                { start := t.localOffsetToGlobal s.start, length := s.length }) } }) := by
        funext symbol
        rw [translateTextSpan_eq_map]
      cases hr : getRefs t (t.globalOffsetToLocal gloOffset) with
      | none => simp [getReferencesAtPositionWrapped, ht, hr]
      | some syms => simp [getReferencesAtPositionWrapped, ht, hr, hfun]

/-- Example referenced symbol with a template-local definition span. -/
def exSymbol : ReferencedSymbol :=
  { definition := { fileName := "a.ts", textSpan := some { start := 1, length := 3 } }
    references := [{ start := 4, length := 2 }] }

/-- Example references handler: always returns `exSymbol`. -/
def exRefsHandler : Template → Nat → Option (List ReferencedSymbol) :=
  fun _ _ => some [exSymbol]

/-- Witness for claim C9: at offset 9 inside `exTemplate`, the composite
find-references result is the handler's symbol with its definition span moved
to global offset 6, and `getReferencesAtPosition` is not among the wrapped
surface names of `exCaps`. -/
theorem findReferences_naming_and_replace_witness :
    getReferencesAtPositionWrapped exProvider exRefsHandler none "a.ts" 9
      = some [{ exSymbol with definition :=
          { exSymbol.definition with textSpan := some { start := 6, length := 3 } } }]
    ∧ "getReferencesAtPosition" ∉ composedWrapperNames exCaps := by
  have h := findReferences_naming_and_replace exCaps exProvider exRefsHandler
      none (some []) "a.ts" 9
  refine ⟨?_, h.2.1⟩
  rw [(h.2.2.2 exTemplate (by decide)).2]
  decide

/-- Every entry produced by the entry-building map step has `sortText` and
`insertText` equal to its `name`. -/
theorem makeCompletionEntries_fields (items : List CompletionItem)
    (partStart partEnd : Nat) (kindOf : CompletionItem → String) :
    ∀ e ∈ makeCompletionEntries items partStart partEnd kindOf,
      e.sortText = e.name ∧ e.insertText = e.name := by
  intro e he
  simp only [makeCompletionEntries, List.mem_map] at he
  rcases he with ⟨item, _, rfl⟩
  exact ⟨rfl, rfl⟩

/-- Claim C10: every completion result built by `makeCompletionInfo` has
pairwise-distinct entry names; among several collected items with the same
name only the first is kept (searching the result for a name finds exactly
the first built entry bearing it, and every kept entry is one of the built
entries); and each kept entry's `sortText` and `insertText` equal its
name. -/
theorem makeCompletionInfo_distinct_names (items : List CompletionItem)
    (partStart partEnd : Nat) (kindOf : CompletionItem → String) :
    ∀ info, makeCompletionInfo (some items) partStart partEnd kindOf = some info →
      ((info.entries.map (fun e => e.name)).Nodup
      ∧ (∀ e ∈ info.entries, e.sortText = e.name ∧ e.insertText = e.name
          ∧ e ∈ makeCompletionEntries items partStart partEnd kindOf)
      ∧ (∀ n : String, info.entries.find? (fun e => e.name == n)
          = (makeCompletionEntries items partStart partEnd kindOf).find?
              (fun e => e.name == n))) := by
  intro info hinfo
  simp only [makeCompletionInfo, Option.some.injEq] at hinfo
  have hentries : info.entries
      = filterRepetitive [] (makeCompletionEntries items partStart partEnd kindOf) := by
    rw [← hinfo]
  rw [hentries]
  refine ⟨(filterRepetitive_nodup [] _).1, ?_, ?_⟩
  · intro e he
    have hsub := filterRepetitive_subset [] _ e he
    have hf := makeCompletionEntries_fields items partStart partEnd kindOf e hsub
    exact ⟨hf.1, hf.2, hsub⟩
  · intro n
    exact filterRepetitive_find [] _ n (by simp)

/-- Example completion items: two share the name `click`, one is `tap`. -/
def exItemA : CompletionItem :=
  { name := "click", description := "d1", start := some 3, end_ := none
    order := none, kind := none }

/-- Second example item, repeating the name `click`. -/
def exItemB : CompletionItem :=
  { name := "click", description := "d2", start := none, end_ := none
    order := none, kind := none }

/-- Third example item with distinct name `tap`. -/
def exItemC : CompletionItem :=
  { name := "tap", description := "d3", start := none, end_ := some 9
    order := none, kind := none }

/-- The completion info `makeCompletionInfo` builds from the three example
items over part range `[5, 9)`: the second `click` is dropped. -/
def exDedupInfo : CompletionInfo :=
  { isGlobalCompletion := false
    isMemberCompletion := false
    isNewIdentifierLocation := false
    entries :=
      [{ name := "click", kind := "event", sortText := "click", insertText := "click"
         replacementSpan := some { start := 3, length := 6 } },
       { name := "tap", kind := "event", sortText := "tap", insertText := "tap"
         replacementSpan := some { start := 5, length := 4 } }] }

/-- Witness for claim C10 at the three example items: the built result is
`exDedupInfo`, its entry names are pairwise distinct, and searching it for
`click` finds the same entry as searching the full pre-filter entry list. -/
theorem makeCompletionInfo_distinct_names_witness :
    makeCompletionInfo (some [exItemA, exItemB, exItemC]) 5 9 (fun _ => "event")
      = some exDedupInfo
    ∧ (exDedupInfo.entries.map (fun e => e.name)).Nodup
    ∧ exDedupInfo.entries.find? (fun e => e.name == "click")
      = (makeCompletionEntries [exItemA, exItemB, exItemC] 5 9 (fun _ => "event")).find?
          (fun e => e.name == "click") := by
  have h := makeCompletionInfo_distinct_names [exItemA, exItemB, exItemC] 5 9
      (fun _ => "event") exDedupInfo (by decide)
  exact ⟨by decide, h.1, h.2.2 "click"⟩

/-- Witness for claim C8 at a concrete span inside `exTemplate`: the start
moves from local 2 to global 7, the length stays 4, and an absent span stays
absent. -/
theorem translateTextSpan_frame_witness :
    translateTextSpan (some { start := 2, length := 4 }) exTemplate
      = some { start := 7, length := 4 }
    ∧ translateTextSpan none exTemplate = none := by
  have h := translateTextSpan_frame exTemplate
  exact ⟨(h.1 { start := 2, length := 4 }).trans (by decide), h.2.1⟩

/-- Example global registry carrying two host fix identifiers. -/
def exTsGlobal : TsGlobal := { getSupportedCodeFixes := fun _ => ["1", "2"] }

/-- Example template-supplied fix identifiers. -/
def exFixCodes : Unit → List Nat := fun _ => [90001, 90002]

/-- Witness for claim C7 at the concrete registry: after construction every
read returns the host identifiers followed by the stringified template
identifiers, and two successive reads return the identical list twice. -/
theorem supported_code_fixes_registry_witness :
    (wrapGetSupportedCodeFixes exTsGlobal (some exFixCodes)).getSupportedCodeFixes ()
      = ["1", "2", "90001", "90002"]
    ∧ readSupportedCodeFixes (wrapGetSupportedCodeFixes exTsGlobal (some exFixCodes)) 2
      = [["1", "2", "90001", "90002"], ["1", "2", "90001", "90002"]] := by
  have h := supported_code_fixes_registry exTsGlobal exFixCodes
  exact ⟨(h.1 ()).trans (by decide), (h.2.1 2).trans (by decide)⟩

end Lupos
